import Mathlib

/-!
Shallow embedding of the ranking/scoring core of the Automate-Distribution
repository (a Next.js + Flask distribution planner).  The definitions below
are translated from the TypeScript sources:

  * `src/utils/excelParser.ts`   — record normalizer (inventory + historical)
  * `src/components/DataReview.tsx` — revenue aggregation and plan validation
  * `src/components/PlanTable.tsx`  — tag transitions and budget-cap edits
  * `src/utils/firebaseOperations.ts` — persistence save/restore

JavaScript numbers are modelled by `ℚ` (rationals); `NaN` never escapes a
coercion in the embedded code paths (every parse failure is collapsed to the
default before use), so a separate `NaN` value is not needed except where
noted in comments.  JavaScript `Math.round` is `⌊x + 1/2⌋`.
-/

namespace AutoDist

/-- JavaScript `Math.round`: round half toward positive infinity. -/
def jsRound (q : ℚ) : ℤ := Int.floor (q + 1/2)

/-- Value of a list of decimal digit characters (most significant first). -/
def digitsVal (cs : List Char) : ℕ :=
  cs.foldl (fun n c => 10 * n + (c.toNat - '0'.toNat)) 0

/-- Model of JavaScript `parseFloat`: skip leading whitespace, optional sign,
decimal mantissa (digits, optional fraction), optional exponent; trailing
garbage is ignored; `none` models `NaN` (no digit could be consumed). -/
def parseFloatQ (s : String) : Option ℚ :=
  let cs := s.toList.dropWhile (fun c => c = ' ' ∨ c = '\t' ∨ c = '\n' ∨ c = '\r')
  let sgn : Bool × List Char :=
    match cs with
    | '-' :: rest => (true, rest)
    | '+' :: rest => (false, rest)
    | _ => (false, cs)
  let neg := sgn.1
  let cs1 := sgn.2
  let ip := cs1.takeWhile Char.isDigit
  let cs2 := cs1.dropWhile Char.isDigit
  let fdata : List Char × List Char :=
    match cs2 with
    | '.' :: rest => (rest.takeWhile Char.isDigit, rest.dropWhile Char.isDigit)
    | _ => ([], cs2)
  let fp := fdata.1
  let cs3 := fdata.2
  if ip.isEmpty ∧ fp.isEmpty then none
  else
    let mant : ℚ := (digitsVal ip : ℚ) + (digitsVal fp : ℚ) / ((10 : ℚ) ^ fp.length)
    let expo : ℤ :=
      match cs3 with
      | c :: rest =>
        if c = 'e' ∨ c = 'E' then
          let esgn : Bool × List Char :=
            match rest with
            | '-' :: r => (true, r)
            | '+' :: r => (false, r)
            | _ => (false, rest)
          let ed := esgn.2.takeWhile Char.isDigit
          if ed.isEmpty then 0
          else if esgn.1 then -(digitsVal ed : ℤ) else (digitsVal ed : ℤ)
        else 0
      | [] => 0
    let q := mant * (10 : ℚ) ^ expo
    some (if neg then -q else q)

/-- Strip thousands separators: JavaScript `s.replace(/,/g, '')`. -/
def stripCommas (s : String) : String :=
  String.mk (s.toList.filter (fun c => c ≠ ','))

/-- A cell of a spreadsheet row after `XLSX.utils.sheet_to_json`
(`string | number | null | undefined`; an absent key behaves like
`undefined`, which we conflate with `null` — both are falsy and neither
occurs as a stored value in the embedded code paths). -/
inductive CellValue where
  | num (q : ℚ)
  | str (s : String)
  | null
deriving DecidableEq, Repr

/-- JavaScript truthiness of a cell value (`0`, `''`, `null`/`undefined`
are falsy). -/
def truthy : CellValue → Bool
  | .num q => q ≠ 0
  | .str s => s ≠ ""
  | .null => false

/-- A raw spreadsheet row: association of column header to cell value. -/
def Row : Type := List (String × CellValue)

/-- JavaScript property access `row[k]` (absent key ⟶ `undefined`,
modelled by `.null`). -/
def rowGet (row : Row) (k : String) : CellValue :=
  match row.find? (fun kv => kv.1 == k) with
  | some kv => kv.2
  | none => .null

/-- A chain `row[k₁] || row[k₂] || ... || dflt` of JavaScript `||`:
first truthy value wins, otherwise the literal default. -/
def jsOrChain (row : Row) (keys : List String) (dflt : CellValue) : CellValue :=
  match keys with
  | [] => dflt
  | k :: ks => if truthy (rowGet row k) then rowGet row k else jsOrChain row ks dflt

/-- JavaScript `String(v)` restricted to the values that reach it in the
embedded code: strings pass through; integral numbers print their digits
(non-integral rationals use the `Rat` representation, a modelling
approximation never exercised by the claims); `null` prints `"null"`. -/
def jsToString : CellValue → String
  | .str s => s
  | .num q => if q.den = 1 then toString q.num else toString q
  | .null => "null"

/-- The plan tags (`PREDEFINED_TAGS` in `excelParser.ts`). -/
inductive Tag where
  | Paid
  | Mandatory
  | FOC
deriving DecidableEq, Repr

/-- `PREDEFINED_PUBLISHERS` in `src/utils/excelParser.ts`. -/
def PREDEFINED_PUBLISHERS : List String :=
  ["JioCinema", "JioEngage", "MyJio", "JioCoupons", "JioFinance", "Poslite"]

/-- The `Plan` interface of `src/utils/excelParser.ts` (the fields the
embedded operations read; optional fields are `Option`, `none` = absent /
`undefined`).  `publisher` is always an array in the embedded paths. -/
structure Plan where
  planId : String
  brand_name : String
  subcategory : String
  publisher : List String
  tags : List Tag
  budgetCap : Option ℚ
  distributionCount : Option ℤ
  clicksToBeDelivered : Option ℤ
  avgRevenue : Option ℤ
  isEdited : Bool
deriving DecidableEq, Repr

/-- A JavaScript `Date` as produced by the embedded parsing paths:
a spreadsheet serial converted by `XLSX.SSF.parse_date_code`, a
year/month(0-based)/day triple, a milliseconds-since-epoch value
(`new Date(number)`), the current processing date (`new Date()`), or
an invalid date. -/
inductive JsDate where
  | fromSerial (serial : ℚ)
  | fromYMD (y m d : ℤ)
  | fromMillis (ms : ℚ)
  | current
  | invalid
deriving DecidableEq, Repr

/-- The `HistoricalData` interface of `src/utils/excelParser.ts`. -/
structure HistoricalData where
  planId : String
  publisher : String
  date : JsDate
  revenue : ℤ
  distribution_count : ℤ
  clicks : ℤ
deriving DecidableEq, Repr

/-- A JavaScript `||` chain WITHOUT a trailing literal default
(`row[k₁] || ... || row[kₙ]`): the last operand is returned as-is when all
previous are falsy (so an absent last key yields `undefined`/`.null`). -/
def jsOrChainNoDflt (row : Row) (keys : List String) : CellValue :=
  match keys with
  | [] => .null
  | [k] => rowGet row k
  | k :: ks => if truthy (rowGet row k) then rowGet row k else jsOrChainNoDflt row ks

/-- First line of a numeric-field coercion in `parseHistoricalData`
(`src/utils/excelParser.ts`):
`typeof v === 'string' ? parseFloat(v.replace(/,/g,'')) : parseFloat(String(v)) || 0`.
`none` models `NaN`; `parseFloat(String(q)) = q` for a finite number `q`,
and `parseFloat(String(null))` is `NaN`, collapsed to `0` by `|| 0`. -/
def numCoerceStep1 (v : CellValue) : Option ℚ :=
  match v with
  | .str s => parseFloatQ (stripCommas s)
  | .num q => some q
  | .null => some 0

/-- Second line: `isNaN(x) ? 0 : Math.round(x)`. -/
def numCoerce (v : CellValue) : ℤ :=
  match numCoerceStep1 v with
  | none => 0
  | some q => jsRound q

/-- Alias lists of `parseHistoricalData` in `src/utils/excelParser.ts`. -/
def clicksAliases : List String :=
  ["Clicks", "clicks", "Total_Clicks", "click_count", "Click_Count", "CLICKS"]

def distributionAliases : List String :=
  ["Distribution_Count", "distribution_count", "Total_Distribution_Count",
   "distribution_count", "Distribution Count", "DISTRIBUTION_COUNT",
   "Distribution_count", "Distribuion_count"]

def revenueAliases : List String :=
  ["Revenue", "revenue", "Total_Revenue", "REVENUE", "Total Revenue", "TotalRevenue"]

def histPlanIdAliases : List String := ["Plan ID", "plan_id", "PlanId", "PLAN_ID"]

def histPublisherAliases : List String := ["Publisher", "publisher", "dist_business", "PUBLISHER"]

def histDateAliases : List String := ["Date", "KPI_date", "date", "DATE"]

/-- The month-abbreviation table of the manual `"Mon D, YYYY"` fallback in
the parser (0-based month index, as passed to `new Date(year, month, day)`). -/
def monthTable : List (String × ℤ) :=
  [("Jan", 0), ("Feb", 1), ("Mar", 2), ("Apr", 3), ("May", 4), ("Jun", 5),
   ("Jul", 6), ("Aug", 7), ("Sep", 8), ("Oct", 9), ("Nov", 10), ("Dec", 11)]

/-- Shape test and decomposition for the regex
`/^[A-Za-z]{3}\s\d{1,2},\s\d{4}$/`: returns the month string, day and year
when the string has exactly that shape. -/
def monDYShapeParse (s : String) : Option (String × ℕ × ℕ) :=
  if (s.toList.take 3).length = 3 ∧ (s.toList.take 3).all Char.isAlpha then
    match s.toList.drop 3 with
    | ' ' :: rest =>
      if 1 ≤ (rest.takeWhile Char.isDigit).length ∧ (rest.takeWhile Char.isDigit).length ≤ 2 then
        match rest.dropWhile Char.isDigit with
        | ',' :: ' ' :: rest3 =>
          if rest3.length = 4 ∧ rest3.all Char.isDigit then
            some (String.mk (s.toList.take 3), digitsVal (rest.takeWhile Char.isDigit),
                  digitsVal rest3)
          else none
        | _ => none
      else none
    | _ => none
  else none

/-- Whether the string matches the `"Mon D, YYYY"` regex. -/
def monDYShape (s : String) : Bool := (monDYShapeParse s).isSome

/-- `"Mon D, YYYY"` decomposed into (0-based month index, day, year),
defined when the shape matches AND the month abbreviation is known. -/
def monDYParts (s : String) : Option (ℤ × ℤ × ℤ) :=
  match monDYShapeParse s with
  | none => none
  | some (mon, d, y) =>
    match (monthTable.find? (fun kv => kv.1 == mon)).map Prod.snd with
    | none => none
    | some mIdx => some (mIdx, (d : ℤ), (y : ℤ))

/-- ISO-like date string `YYYY-MM-DD` decomposed into (year, 1-based month,
day); a model of the portable core of JavaScript `Date.parse` on strings. -/
def parseIsoDate (s : String) : Option (ℤ × ℤ × ℤ) :=
  if (s.toList.take 4).length = 4 ∧ (s.toList.take 4).all Char.isDigit then
    match s.toList.drop 4 with
    | '-' :: rest =>
      if (rest.take 2).length = 2 ∧ (rest.take 2).all Char.isDigit then
        match rest.drop 2 with
        | '-' :: rest2 =>
          if rest2.length = 2 ∧ rest2.all Char.isDigit then
            some ((digitsVal (s.toList.take 4) : ℤ), (digitsVal (rest.take 2) : ℤ),
                  (digitsVal rest2 : ℤ))
          else none
        | _ => none
      else none
    | _ => none
  else none

/-- Model of `new Date(string)`: a known month-name form (`"Mon D, YYYY"`)
or an ISO-like form parses to a calendar date (month stored 0-based as the
JS `Date` constructor takes it); anything else is an Invalid Date. -/
def jsNewDateOfString (s : String) : JsDate :=
  if monDYShape s then
    match monDYParts s with
    | some (m, d, y) => .fromYMD y m d
    | none => .invalid
  else
    match parseIsoDate s with
    | some (y, m, d) => .fromYMD y (m - 1) d
    | none => .invalid

/-- Date field of `parseHistoricalData` in `src/utils/excelParser.ts`:
`new Date(row['Date'] || row['KPI_date'] || row['date'] || row['DATE'] || new Date())`.
`new Date(number)` interprets milliseconds since the Unix epoch. -/
def srcDateOf (row : Row) : JsDate :=
  match jsOrChain row histDateAliases .null with
  | .null => .current
  | .num q => .fromMillis q
  | .str s => jsNewDateOfString s

/-- One row of `parseHistoricalData` (`src/utils/excelParser.ts`, the
row-mapping body). -/
def parseHistoricalRow (row : Row) : HistoricalData :=
  { planId := jsToString (jsOrChain row histPlanIdAliases (.str ""))
    publisher := jsToString (jsOrChain row histPublisherAliases (.str ""))
    date := srcDateOf row
    revenue := numCoerce (jsOrChain row revenueAliases (.num 0))
    distribution_count := numCoerce (jsOrChain row distributionAliases (.num 0))
    clicks := numCoerce (jsOrChain row clicksAliases (.num 0)) }

/-- `parseHistoricalData` (`src/utils/excelParser.ts`): every raw row maps
to one canonical record; no row is skipped. -/
def parseHistoricalData (rows : List Row) : List HistoricalData :=
  rows.map parseHistoricalRow

/-- Alias list for the inventory plan identifier
(`parseInventoryReport`, `src/utils/excelParser.ts`). -/
def invPlanIdAliases : List String := ["planId", "Plan ID", "plan_id", "PlanId"]

def invBudgetCapAliases : List String := ["budgetCap", "Budget Cap", "budget_cap"]

def invSubcategoryAliases : List String :=
  ["subcategory", "Subcategory", "SubCategory", "sub_category"]

def invBrandNameAliases : List String := ["brand_name", "Brand Name", "BrandName", "brand"]

/-- One row of `parseInventoryReport` (`src/utils/excelParser.ts`).  The
Firebase lookup `getLatestPlanData` is injected as `store`; an existing
plan is returned with `isEdited := false`, otherwise a fresh plan is built
from the row.  A `NaN` budget cap (unparseable string) is modelled as `0`:
only definedness of the field is read downstream. -/
def parseInventoryRow (store : String → Option Plan) (row : Row) : Plan :=
  let planId := jsToString (jsOrChain row invPlanIdAliases (.str ""))
  match store planId with
  | some existingPlan => { existingPlan with isEdited := false }
  | none =>
    let parsedBudgetCap : ℚ :=
      match jsOrChainNoDflt row invBudgetCapAliases with
      | .null => 0
      | .str s => (parseFloatQ s).getD 0
      | .num q => q
    { planId := planId
      subcategory := jsToString (jsOrChain row invSubcategoryAliases (.str ""))
      brand_name := jsToString (jsOrChain row invBrandNameAliases (.str ""))
      budgetCap := some parsedBudgetCap
      tags := []
      publisher := []
      distributionCount := some 0
      clicksToBeDelivered := some 0
      avgRevenue := none
      isEdited := false }

/-- `parseInventoryReport` (`src/utils/excelParser.ts`): every raw row maps
to one plan; no row is skipped. -/
def parseInventoryReport (store : String → Option Plan) (rows : List Row) : List Plan :=
  rows.map (parseInventoryRow store)

namespace Part007

/-- Date alias chain of the revised `parseHistoricalData` (the newer
`excelParser.ts` revision), `row['Date'] || row['KPI_date'] || row['date']
|| row['DATE'] || row['Day'] || row['KPI date']`, with no literal default. -/
def dateAliases : List String := ["Date", "KPI_date", "date", "DATE", "Day", "KPI date"]

def planIdAliases : List String :=
  ["Plan ID", "plan_id", "PlanId", "PLAN_ID", "planid", "planId", "Plan Id"]

def publisherAliases : List String :=
  ["Publisher", "publisher", "dist_business", "PUBLISHER", "pub", "Pub"]

/-- The revised distribution alias list (adds a plain `Distribution` key). -/
def distributionAliases : List String :=
  AutoDist.distributionAliases ++ ["Distribution"]

/-- Date coercion of the revised `parseHistoricalData` on the selected cell
value: a numeric cell is a spreadsheet serial (`XLSX.SSF.parse_date_code`);
a string matching `"Mon D, YYYY"` goes through `new Date(string)` with a
manual month-table fallback; any other string goes through
`new Date(string)`; on every failure the preinitialised default
`new Date()` (current processing date) survives. -/
def dateCoerceVal (v : CellValue) : JsDate :=
  match v with
  | .null => .current
  | .num serial => .fromSerial serial
  | .str s =>
    if monDYShape s then
      match jsNewDateOfString s with
      | .invalid =>
        match monDYParts s with
        | some (m, d, y) => .fromYMD y m d
        | none => .current
      | d => d
    else
      match jsNewDateOfString s with
      | .invalid => .current
      | d => d

/-- The date field of one revised historical row. -/
def dateOf (row : Row) : JsDate :=
  dateCoerceVal (jsOrChainNoDflt row dateAliases)

/-- Substring test (`String.prototype.includes`). -/
def strContainsSub (s pat : String) : Bool := (s.splitOn pat).length ≠ 1

/-- Lower-cased copy of a string. -/
def toLowerStr (s : String) : String := s.map Char.toLower

/-- `key.toLowerCase().includes('revenue') || ...('earnings') || ...('income')`. -/
def revenueKeyLike (k : String) : Bool :=
  strContainsSub (toLowerStr k) "revenue" || strContainsSub (toLowerStr k) "earnings"
    || strContainsSub (toLowerStr k) "income"

/-- Revenue cell selection of the revised parser: the standard alias chain,
then — if that is `undefined`/`null` — the first key of the row whose name
contains revenue/earnings/income. -/
def revenueValueOf (row : Row) : CellValue :=
  match jsOrChainNoDflt row revenueAliases with
  | .null =>
    match (row.filter (fun kv => revenueKeyLike kv.1)).head? with
    | some kv => kv.2
    | none => .null
  | v => v

/-- One row of the revised `parseHistoricalData`. -/
def parseHistoricalRow (row : Row) : HistoricalData :=
  { planId := jsToString (jsOrChain row planIdAliases (.str ""))
    publisher := jsToString (jsOrChain row publisherAliases (.str ""))
    date := dateOf row
    revenue := numCoerce (revenueValueOf row)
    distribution_count := numCoerce (jsOrChain row distributionAliases (.num 0))
    clicks := numCoerce (jsOrChain row clicksAliases (.num 0)) }

/-- The revised `parseHistoricalData`: one record per raw row. -/
def parseHistoricalData (rows : List Row) : List HistoricalData :=
  rows.map parseHistoricalRow

end Part007

namespace DataReview

/-- One step of the `revenueByPlan` accumulation in `calculateAverageRevenue`
(`src/components/DataReview.tsx`): the record's revenue is added under the
key `record.planId` ALONE (publisher is deliberately ignored), initialising
`{totalRevenue: 0, count: 0}` on first sight of the key. -/
def revenueByPlanStep (m : String → Option (ℤ × ℕ)) (r : HistoricalData) :
    String → Option (ℤ × ℕ) :=
  fun k =>
    if k = r.planId then
      match m r.planId with
      | none => some (r.revenue, 1)
      | some tc => some (tc.1 + r.revenue, tc.2 + 1)
    else m k

/-- The `revenueByPlan` map after the `forEach` over all records. -/
def revenueByPlan (records : List HistoricalData) : String → Option (ℤ × ℕ) :=
  records.foldl revenueByPlanStep (fun _ => none)

/-- Per-plan application: `if (planData && planData.totalRevenue > 0)` set
`avgRevenue = Math.round(totalRevenue / 7)`, else return the plan as-is. -/
def applyAvgRevenue (records : List HistoricalData) (plan : Plan) : Plan :=
  match revenueByPlan records plan.planId with
  | some tc =>
    if 0 < tc.1 then { plan with avgRevenue := some (jsRound ((tc.1 : ℚ) / 7)) } else plan
  | none => plan

/-- `calculateAverageRevenue` (`src/components/DataReview.tsx`, the
`updatedPlans` mapping).  The early return on an empty record set leaves
the plans untouched, which coincides with mapping `applyAvgRevenue` over
them (every lookup misses), so one definition covers both paths. -/
def calculateAverageRevenue (records : List HistoricalData) (plans : List Plan) : List Plan :=
  plans.map (applyAvgRevenue records)

/-- Spec-level total: sum of revenue over ALL records whose `planId`
matches the key. -/
def totalRevenueFor (records : List HistoricalData) (pid : String) : ℤ :=
  ((records.filter (fun r => r.planId = pid)).map HistoricalData.revenue).sum

/-- One iteration of the `plans.forEach` body of `validatePlans`
(`src/components/DataReview.tsx`): each failing check clears `isValid` and
increments `unfilledCount`. -/
def validateStep (acc : Bool × ℕ) (plan : Plan) : Bool × ℕ :=
  let a1 := if plan.publisher = [] then (false, acc.2 + 1) else acc
  let a2 := if Tag.Paid ∈ plan.tags ∧ plan.budgetCap = none then (false, a1.2 + 1) else a1
  let a3 := if Tag.Mandatory ∈ plan.tags ∧ plan.distributionCount = none then (false, a2.2 + 1) else a2
  if Tag.FOC ∈ plan.tags ∧ plan.clicksToBeDelivered = none then (false, a3.2 + 1) else a3

/-- `validatePlans` (`src/components/DataReview.tsx`), returning the final
`(isValid, unfilledCount)` pair of the mutable locals. -/
def validatePlans (plans : List Plan) : Bool × ℕ :=
  plans.foldl validateStep (true, 0)

/-- Number of failing checks a single plan contributes. -/
def planUnfilled (plan : Plan) : ℕ :=
  (if plan.publisher = [] then 1 else 0)
    + (if Tag.Paid ∈ plan.tags ∧ plan.budgetCap = none then 1 else 0)
    + (if Tag.Mandatory ∈ plan.tags ∧ plan.distributionCount = none then 1 else 0)
    + (if Tag.FOC ∈ plan.tags ∧ plan.clicksToBeDelivered = none then 1 else 0)

/-- The claim's classification, stated from the spec's words: a plan is
incomplete iff its publisher list is empty, or a tag-specific required
field is undefined (a present 0 passes). -/
def specIncomplete (plan : Plan) : Prop :=
  plan.publisher = []
    ∨ (Tag.Paid ∈ plan.tags ∧ plan.budgetCap = none)
    ∨ (Tag.Mandatory ∈ plan.tags ∧ plan.distributionCount = none)
    ∨ (Tag.FOC ∈ plan.tags ∧ plan.clicksToBeDelivered = none)

instance (plan : Plan) : Decidable (specIncomplete plan) := by
  unfold specIncomplete; infer_instance

/-- A per-publisher tab: the plans assigned to that publisher. -/
def byPublisherView (plans : List Plan) (pub : String) : List Plan :=
  plans.filter (fun p => pub ∈ p.publisher)

/-- The all-plans tab. -/
def allPublishersView (plans : List Plan) : List Plan := plans

end DataReview

namespace PlanTable

/-- `handlePlanUpdate` (`src/components/DataReview.tsx`): replace every
plan whose `planId` matches the updated plan's. -/
def handlePlanUpdate (plans : List Plan) (updatedPlan : Plan) : List Plan :=
  plans.map (fun plan => if plan.planId = updatedPlan.planId then updatedPlan else plan)

/-- `handleTagSelect` (`src/components/PlanTable.tsx`) acting on one plan:
single-select tag replacement with field resets. -/
def handleTagSelect (plan : Plan) (tag : Tag) : Plan :=
  if tag ∈ plan.tags ∧ plan.tags.length = 1 then plan
  else
    let updated : Plan := { plan with tags := [tag], isEdited := true }
    let updated : Plan :=
      if (tag = .FOC ∨ tag = .Mandatory) ∧ Tag.Paid ∈ plan.tags then
        { updated with budgetCap := none }
      else updated
    if tag = .FOC then
      if updated.clicksToBeDelivered = none then
        { updated with clicksToBeDelivered := some 0 }
      else updated
    else if tag = .Mandatory then
      if updated.distributionCount = none then
        { updated with distributionCount := some 0 }
      else updated
    else
      { updated with budgetCap := some (updated.budgetCap.getD 0) }

/-- `handleBudgetChange` (`src/components/PlanTable.tsx`) composed with the
`onPlanUpdate` callback (`handlePlanUpdate`): when the indexed plan lacks
the Paid tag only a warning toast fires and no update is issued. -/
def handleBudgetChange (plans : List Plan) (index : ℕ) (value : String) : List Plan :=
  match plans.get? index with
  | none => plans
  | some p =>
    if Tag.Paid ∈ p.tags then
      let numericValue : ℚ := if value = "" then 0 else (parseFloatQ value).getD 0
      handlePlanUpdate plans { p with budgetCap := some numericValue, isEdited := true }
    else plans

end PlanTable

namespace Firebase

/-- A document of the `plans` collection as `doc.data()` returns it: every
field may be missing. -/
structure StoredData where
  planId : String
  tags : Option (List Tag)
  publisher : Option (List String)
  subcategory : Option String
  brand_name : Option String
  budgetCap : Option ℚ
  distributionCount : Option ℤ
  clicksToBeDelivered : Option ℤ
deriving DecidableEq, Repr

/-- A stored document together with its `timestamp` field. -/
structure StoredEntry where
  data : StoredData
  timestamp : ℕ
deriving DecidableEq, Repr

/-- Accumulator of the `orderBy('timestamp','desc'), limit(1)` query:
keep the entry with the greatest timestamp (first such on ties). -/
def pickLater (best : Option StoredEntry) (e : StoredEntry) : Option StoredEntry :=
  match best with
  | none => some e
  | some b => if b.timestamp < e.timestamp then some e else some b

/-- The document the Firestore query returns: among entries whose `planId`
matches, one with the maximal timestamp; `none` when no entry matches. -/
def latestFor (store : List StoredEntry) (pid : String) : Option StoredEntry :=
  (store.filter (fun e => e.data.planId = pid)).foldl pickLater none

/-- Reconstruction of a `Plan` from a stored document (`getLatestPlanData`,
`src/utils/firebaseOperations.ts`): tag-conditional field restoration.
`data.tags` is truthy in JS iff it is present (an array, even empty), so
`data.tags && data.tags.includes(t)` is `t ∈ tags.getD []`. -/
def restorePlan (d : StoredData) : Plan :=
  let tags := d.tags.getD []
  { planId := d.planId
    tags := tags
    publisher := d.publisher.getD []
    subcategory := d.subcategory.getD ""
    brand_name := d.brand_name.getD ""
    budgetCap := if Tag.Paid ∈ tags then d.budgetCap else none
    distributionCount := if Tag.Mandatory ∈ tags then d.distributionCount else none
    clicksToBeDelivered := if Tag.FOC ∈ tags then d.clicksToBeDelivered else none
    avgRevenue := none
    isEdited := false }

/-- `getLatestPlanData` (`src/utils/firebaseOperations.ts`): the whole
lookup, with the Firestore round-trip abstracted as an `Except` — a raised
error is caught and becomes `null`, an empty snapshot becomes `null`,
otherwise the single returned document is reconstructed. -/
def getLatestPlanData (queryResult : Except Unit (List StoredEntry)) (pid : String) :
    Option Plan :=
  match queryResult with
  | .error _ => none
  | .ok store =>
    match latestFor store pid with
    | none => none
    | some e => some (restorePlan e.data)

end Firebase

namespace RuleEngine

/-- Weight configuration of the scoring step (README of the Flask API:
optional `weights`, default `{CTR: 0.33, EPC: 0.33, Revenue: 0.33}`). -/
structure WeightConfig where
  ctrWeight : ℚ
  epcWeight : ℚ
  revenueWeight : ℚ
deriving DecidableEq, Repr

/-- The default weights (0.33 each). -/
def defaultWeights : WeightConfig := ⟨33/100, 33/100, 33/100⟩

/-- Aggregated per-plan metrics entering the scorer. -/
structure AggregatedMetrics where
  ctr : ℚ
  epc : ℚ
  avgRevenue : ℚ
deriving DecidableEq, Repr

/-- Modelled from the spec: the scoring formula of the Flask rule engine
(`generate_rankings` in `api/index.py`) — the engine itself is not under
`src/`, only its HTTP callers and the API README are.  Spec §4.4:
`score = ctr*ctrWeight + epc*epcWeight + (avgRevenue/1000)*revenueWeight`. -/
def score (m : AggregatedMetrics) (w : WeightConfig) : ℚ :=
  m.ctr * w.ctrWeight + m.epc * w.epcWeight + m.avgRevenue / 1000 * w.revenueWeight

/-- Modelled from the spec: budget damping
`adjustedScore = score * min(1.0, budgetCap / 1000)`, applied only when the
plan's active tag is Paid; Mandatory/FOC plans keep the undamped score
(spec §4.4). -/
def adjustedScore (m : AggregatedMetrics) (w : WeightConfig) (activeTag : Tag)
    (budgetCap : ℚ) : ℚ :=
  if activeTag = .Paid then score m w * min 1 (budgetCap / 1000) else score m w

end RuleEngine

/-- Rename every record's publisher (used to state that aggregation ignores
the publisher entirely). -/
def setRecordPublisher (f : String → String) (r : HistoricalData) : HistoricalData :=
  { r with publisher := f r.publisher }

/-- Numeric coercion as the spec words it: strip thousands separators,
parse as float, map parse failure or NaN to 0, round to an integer. -/
def specNumCoerce (v : CellValue) : ℤ :=
  jsRound (match v with
           | .str s => (parseFloatQ (stripCommas s)).getD 0
           | .num q => q
           | .null => 0)

/-- Date coercion as the spec words it: a spreadsheet serial day-number is
accepted as-is; a `"Mon D, YYYY"` string parses through the month table; an
ISO-like string parses to its calendar date; when every accepted form fails
the current processing date is used. -/
def specDateCoerce (v : CellValue) : JsDate :=
  match v with
  | .num serial => .fromSerial serial
  | .str s =>
    match monDYParts s with
    | some (m, d, y) => .fromYMD y m d
    | none =>
      match parseIsoDate s with
      | some (y, m, d) => .fromYMD y (m - 1) d
      | none => .current
  | .null => .current

namespace DataReview

lemma revenueByPlan_foldl (records : List HistoricalData) (m : String → Option (ℤ × ℕ))
    (pid : String) :
    records.foldl revenueByPlanStep m pid =
      if (records.filter (fun r => r.planId = pid)) = [] then m pid
      else some (((m pid).getD (0, 0)).1 + totalRevenueFor records pid,
                 ((m pid).getD (0, 0)).2 + (records.filter (fun r => r.planId = pid)).length) := by
  induction records generalizing m with
  | nil => simp
  | cons r rs ih =>
    rw [List.foldl_cons, ih]
    by_cases h : r.planId = pid
    · have hstep : revenueByPlanStep m r pid =
          some (((m pid).getD (0, 0)).1 + r.revenue, ((m pid).getD (0, 0)).2 + 1) := by
        unfold revenueByPlanStep
        rw [if_pos h.symm, ← h]
        cases m r.planId <;> simp
      have hfil : (r :: rs).filter (fun x => x.planId = pid) =
          r :: rs.filter (fun x => x.planId = pid) := by
        simp [List.filter_cons, h]
      have htot : totalRevenueFor (r :: rs) pid = r.revenue + totalRevenueFor rs pid := by
        unfold totalRevenueFor
        rw [hfil]; simp
      by_cases hrs : rs.filter (fun x => x.planId = pid) = []
      · have htot0 : totalRevenueFor rs pid = 0 := by
          unfold totalRevenueFor; rw [hrs]; simp
        rw [if_pos hrs, hstep, hfil, htot, htot0, hrs]
        simp
      · rw [if_neg hrs, hstep, hfil, htot]
        have : ((r :: rs.filter (fun x => x.planId = pid))).length =
            (rs.filter (fun x => x.planId = pid)).length + 1 := by simp
        rw [if_neg (by simp), this]
        simp
        constructor
        · ring
        · omega
    · have hstep : revenueByPlanStep m r pid = m pid := by
        unfold revenueByPlanStep
        rw [if_neg (fun hc => h hc.symm)]
      have hfil : (r :: rs).filter (fun x => x.planId = pid) =
          rs.filter (fun x => x.planId = pid) := by
        simp [List.filter_cons, h]
      have htot : totalRevenueFor (r :: rs) pid = totalRevenueFor rs pid := by
        unfold totalRevenueFor; rw [hfil]
      rw [hstep, hfil, htot]

lemma revenueByPlan_spec (records : List HistoricalData) (pid : String) :
    revenueByPlan records pid =
      if (records.filter (fun r => r.planId = pid)) = [] then none
      else some (totalRevenueFor records pid,
                 (records.filter (fun r => r.planId = pid)).length) := by
  unfold revenueByPlan
  rw [revenueByPlan_foldl]
  split <;> simp

lemma totalRevenueFor_eq_zero_of_no_match (records : List HistoricalData) (pid : String)
    (h : records.filter (fun r => r.planId = pid) = []) : totalRevenueFor records pid = 0 := by
  unfold totalRevenueFor; rw [h]; simp

lemma applyAvgRevenue_eq (records : List HistoricalData) (p : Plan) :
    applyAvgRevenue records p =
      if 0 < totalRevenueFor records p.planId
      then { p with avgRevenue := some (jsRound ((totalRevenueFor records p.planId : ℚ) / 7)) }
      else p := by
  unfold applyAvgRevenue
  rw [revenueByPlan_spec]
  by_cases h : records.filter (fun r => r.planId = p.planId) = []
  · rw [if_pos h]
    have := totalRevenueFor_eq_zero_of_no_match records p.planId h
    rw [if_neg (by rw [this]; exact lt_irrefl 0)]
  · rw [if_neg h]

/-- C1 — amended.  For every record set and plan, the aggregation groups by
`planId` and divides the summed revenue by the fixed constant 7 (rounded);
however, when the summed matching revenue is not positive (in particular
when no record matches), the plan is returned unchanged — its `avgRevenue`
stays unset rather than being set to 0. -/
theorem C1_avgRevenue_fixed_seven_day_window
    (records : List HistoricalData) (plans : List Plan) (i : ℕ) (p : Plan)
    (h : plans.get? i = some p) :
    (calculateAverageRevenue records plans).get? i =
      some (if 0 < totalRevenueFor records p.planId
            then { p with avgRevenue := some (jsRound ((totalRevenueFor records p.planId : ℚ) / 7)) }
            else p) := by
  unfold calculateAverageRevenue
  rw [List.get?_map, h, Option.map_some']
  rw [applyAvgRevenue_eq]

/-- C1 — witness: the spec's own scenario, one record with revenue 700 for
plan P1 yields `avgRevenue = round(700 / 7) = 100`. -/
theorem C1_avgRevenue_fixed_seven_day_window_witness :
    (calculateAverageRevenue [⟨"P1", "X", .current, 700, 1000, 50⟩]
        [⟨"P1", "", "", [], [], none, none, none, none, false⟩]).get? 0 =
      some ⟨"P1", "", "", [], [], none, none, none, some 100, false⟩ := by
  have h := C1_avgRevenue_fixed_seven_day_window
    [⟨"P1", "X", .current, 700, 1000, 50⟩]
    [⟨"P1", "", "", [], [], none, none, none, none, false⟩] 0
    ⟨"P1", "", "", [], [], none, none, none, none, false⟩ rfl
  rw [h]
  norm_num [totalRevenueFor, jsRound]

/-- C1 — counterexample to the claim as stated: with no matching historical
records the claim demands `avgRevenue = round(0 / 7) = 0`, but the code
leaves the field unset (`none`). -/
theorem C1_avgRevenue_counterexample :
    ¬ (((calculateAverageRevenue []
          [⟨"P1", "", "", [], [], none, none, none, none, false⟩]).get? 0).map Plan.avgRevenue
        = some (some (jsRound ((totalRevenueFor [] "P1" : ℚ) / 7)))) := by
  simp [calculateAverageRevenue, applyAvgRevenue, revenueByPlan]

lemma revenueByPlanStep_setPublisher (m : String → Option (ℤ × ℕ)) (f : String → String)
    (r : HistoricalData) :
    revenueByPlanStep m (setRecordPublisher f r) = revenueByPlanStep m r := rfl

lemma revenueByPlan_foldl_setPublisher (records : List HistoricalData) (f : String → String)
    (m : String → Option (ℤ × ℕ)) :
    (records.map (setRecordPublisher f)).foldl revenueByPlanStep m =
      records.foldl revenueByPlanStep m := by
  induction records generalizing m with
  | nil => rfl
  | cons r rs ih =>
    simp only [List.map_cons, List.foldl_cons, revenueByPlanStep_setPublisher]
    exact ih _

lemma revenueByPlan_setPublisher (records : List HistoricalData) (f : String → String) :
    revenueByPlan (records.map (setRecordPublisher f)) = revenueByPlan records := by
  unfold revenueByPlan
  exact revenueByPlan_foldl_setPublisher records f _

lemma calculateAverageRevenue_setPublisher (records : List HistoricalData)
    (f : String → String) (plans : List Plan) :
    calculateAverageRevenue (records.map (setRecordPublisher f)) plans =
      calculateAverageRevenue records plans := by
  unfold calculateAverageRevenue
  have : applyAvgRevenue (records.map (setRecordPublisher f)) = applyAvgRevenue records := by
    funext p
    unfold applyAvgRevenue
    rw [revenueByPlan_setPublisher]
  rw [this]

lemma applyAvgRevenue_planId (records : List HistoricalData) (p : Plan) :
    (applyAvgRevenue records p).planId = p.planId := by
  rw [applyAvgRevenue_eq]
  split <;> rfl

/-- C2 — confirmed.  Revenue aggregation is keyed by `planId` alone: renaming
every record's publisher arbitrarily does not change any computed average,
and for plans with distinct ids, two entries with the same `planId` seen in
any two publisher tabs carry the same `avgRevenue`; the same entry also sits
in the all-plans view. -/
theorem C2_cross_publisher_revenue_invariance
    (records : List HistoricalData) (plans : List Plan) (f : String → String)
    (A B : String) (qa qb : Plan)
    (hnodup : (plans.map Plan.planId).Nodup)
    (ha : qa ∈ byPublisherView (calculateAverageRevenue records plans) A)
    (hb : qb ∈ byPublisherView
            (calculateAverageRevenue (records.map (setRecordPublisher f)) plans) B)
    (hid : qa.planId = qb.planId) :
    qa.avgRevenue = qb.avgRevenue ∧
    qa ∈ allPublishersView (calculateAverageRevenue records plans) := by
  rw [calculateAverageRevenue_setPublisher] at hb
  have ha' : qa ∈ calculateAverageRevenue records plans :=
    List.mem_of_mem_filter ha
  have hb' : qb ∈ calculateAverageRevenue records plans :=
    List.mem_of_mem_filter hb
  have hma : qa ∈ plans.map (applyAvgRevenue records) := ha'
  have hmb : qb ∈ plans.map (applyAvgRevenue records) := hb'
  obtain ⟨pa, hpa, hqa⟩ := List.mem_map.mp hma
  obtain ⟨pb, hpb, hqb⟩ := List.mem_map.mp hmb
  have hpid : pa.planId = pb.planId := by
    rw [← hqa, ← hqb, applyAvgRevenue_planId, applyAvgRevenue_planId] at hid
    exact hid
  have hpab : pa = pb := List.inj_on_of_nodup_map hnodup hpa hpb hpid
  subst hpab
  have hq : qa = qb := by rw [← hqa, ← hqb]
  exact ⟨by rw [hq], by unfold allPublishersView; exact ha'⟩

/-- C2 — witness at a concrete input: one plan assigned to two publishers,
one historical record; the hypotheses hold and the conclusion follows by
the theorem. -/
theorem C2_cross_publisher_revenue_invariance_witness :
    (([⟨"P1", "", "", ["JioCinema", "JioEngage"], [], none, none, none, none,
        false⟩] : List Plan).map Plan.planId).Nodup ∧
    (⟨"P1", "", "", ["JioCinema", "JioEngage"], [], none, none, none, none, false⟩ : Plan) ∈
      byPublisherView
        (calculateAverageRevenue [⟨"P1", "X", .current, 0, 0, 0⟩]
          [⟨"P1", "", "", ["JioCinema", "JioEngage"], [], none, none, none, none, false⟩])
        "JioCinema" ∧
    (⟨"P1", "", "", ["JioCinema", "JioEngage"], [], none, none, none, none, false⟩ : Plan) ∈
      byPublisherView
        (calculateAverageRevenue
          (([⟨"P1", "X", .current, 0, 0, 0⟩] : List HistoricalData).map
            (setRecordPublisher id))
          [⟨"P1", "", "", ["JioCinema", "JioEngage"], [], none, none, none, none, false⟩])
        "JioEngage" ∧
    ((⟨"P1", "", "", ["JioCinema", "JioEngage"], [], none, none, none, none, false⟩ : Plan).avgRevenue =
      (⟨"P1", "", "", ["JioCinema", "JioEngage"], [], none, none, none, none, false⟩ : Plan).avgRevenue ∧
    (⟨"P1", "", "", ["JioCinema", "JioEngage"], [], none, none, none, none, false⟩ : Plan) ∈
      allPublishersView
        (calculateAverageRevenue [⟨"P1", "X", .current, 0, 0, 0⟩]
          [⟨"P1", "", "", ["JioCinema", "JioEngage"], [], none, none, none, none, false⟩])) :=
  ⟨by decide, by decide, by decide,
    C2_cross_publisher_revenue_invariance
      [⟨"P1", "X", .current, 0, 0, 0⟩]
      [⟨"P1", "", "", ["JioCinema", "JioEngage"], [], none, none, none, none, false⟩]
      id "JioCinema" "JioEngage"
      ⟨"P1", "", "", ["JioCinema", "JioEngage"], [], none, none, none, none, false⟩
      ⟨"P1", "", "", ["JioCinema", "JioEngage"], [], none, none, none, none, false⟩
      (by decide) (by decide) (by decide) rfl⟩

end DataReview

namespace RuleEngine

/-- C3 — confirmed (modelled from the spec; the Flask scoring engine is not
under `src/`).  The score is the weighted sum `ctr*ctrWeight + epc*epcWeight
+ (avgRevenue/1000)*revenueWeight` with default weights 0.33 each; the
damping factor `min(1, budgetCap/1000)` multiplies the score only for Paid
plans, halving it at `budgetCap = 500` and leaving it untouched from
`budgetCap = 1000` upward; Mandatory/FOC plans are undamped. -/
theorem C3_score_formula_and_paid_damping
    (m : AggregatedMetrics) (w : WeightConfig) (tag : Tag) (budgetCap : ℚ) :
    score m w = m.ctr * w.ctrWeight + m.epc * w.epcWeight
        + m.avgRevenue / 1000 * w.revenueWeight ∧
    defaultWeights = ⟨33/100, 33/100, 33/100⟩ ∧
    (tag = .Paid → adjustedScore m w tag budgetCap = score m w * min 1 (budgetCap / 1000)) ∧
    (tag ≠ .Paid → adjustedScore m w tag budgetCap = score m w) ∧
    (tag = .Paid → budgetCap = 500 → adjustedScore m w tag budgetCap = score m w / 2) ∧
    (tag = .Paid → 1000 ≤ budgetCap → adjustedScore m w tag budgetCap = score m w) := by
  refine ⟨rfl, rfl, ?_, ?_, ?_, ?_⟩
  · intro h
    unfold adjustedScore
    rw [if_pos h]
  · intro h
    unfold adjustedScore
    rw [if_neg h]
  · intro h hc
    subst h; subst hc
    unfold adjustedScore
    rw [if_pos rfl]
    rw [show min (1 : ℚ) (500 / 1000) = 1 / 2 by norm_num]
    ring
  · intro h hc
    subst h
    unfold adjustedScore
    rw [if_pos rfl]
    rw [min_eq_left (by rw [le_div_iff (by norm_num : (0:ℚ) < 1000)]; linarith), mul_one]

/-- C3 — witness: a Paid plan with budget cap 500 scores exactly half the
undamped score (at the spec's sample metrics and default weights). -/
theorem C3_score_formula_and_paid_damping_witness :
    adjustedScore ⟨5, 14, 100⟩ defaultWeights .Paid 500 =
      score ⟨5, 14, 100⟩ defaultWeights / 2 :=
  (C3_score_formula_and_paid_damping ⟨5, 14, 100⟩ defaultWeights .Paid 500).2.2.2.2.1 rfl rfl

end RuleEngine

namespace PlanTable

/-- C4 — confirmed.  Selecting tag `t` on a plan replaces the tag set with
`[t]` unless `t` is already the sole tag (then nothing changes); moving a
previously-Paid plan to FOC or Mandatory clears `budgetCap`; selecting FOC
(resp. Mandatory, Paid) initialises `clicksToBeDelivered` (resp.
`distributionCount`, `budgetCap`) to 0 when previously unset. -/
theorem C4_tag_select_transition (plan : Plan) (tag : Tag) :
    (plan.tags = [tag] → handleTagSelect plan tag = plan) ∧
    (plan.tags ≠ [tag] →
      (handleTagSelect plan tag).tags = [tag] ∧
      ((tag = .FOC ∨ tag = .Mandatory) → Tag.Paid ∈ plan.tags →
        (handleTagSelect plan tag).budgetCap = none) ∧
      (tag = .FOC → plan.clicksToBeDelivered = none →
        (handleTagSelect plan tag).clicksToBeDelivered = some 0) ∧
      (tag = .Mandatory → plan.distributionCount = none →
        (handleTagSelect plan tag).distributionCount = some 0) ∧
      (tag = .Paid → plan.budgetCap = none →
        (handleTagSelect plan tag).budgetCap = some 0)) := by
  constructor
  · intro h
    unfold handleTagSelect
    rw [if_pos ⟨by rw [h]; exact List.mem_singleton_self tag, by rw [h]; rfl⟩]
  · intro hne
    have hguard : ¬ (tag ∈ plan.tags ∧ plan.tags.length = 1) := by
      rintro ⟨hmem, hlen⟩
      obtain ⟨a, ha⟩ := List.length_eq_one.mp hlen
      rw [ha] at hmem
      simp only [List.mem_singleton] at hmem
      exact hne (by rw [ha, hmem])
    cases tag with
    | Paid =>
      refine ⟨?_, ?_, ?_, ?_, ?_⟩
      · simp [handleTagSelect, hguard]
      · rintro (h | h) _ <;> exact absurd h (by simp)
      · intro h; exact absurd h (by simp)
      · intro h; exact absurd h (by simp)
      · intro _ hb
        simp [handleTagSelect, hguard, hb]
    | Mandatory =>
      refine ⟨?_, ?_, ?_, ?_, ?_⟩
      · simp only [handleTagSelect, if_neg hguard]
        split_ifs <;> rfl
      · rintro _ hp
        simp only [handleTagSelect, if_neg hguard]
        simp only [hp, and_true, or_true, if_pos]
        split_ifs <;> rfl
      · intro h; exact absurd h (by simp)
      · intro _ hd
        simp only [handleTagSelect, if_neg hguard]
        split_ifs with h1 h2 <;> simp_all
      · intro h; exact absurd h (by simp)
    | FOC =>
      refine ⟨?_, ?_, ?_, ?_, ?_⟩
      · simp only [handleTagSelect, if_neg hguard]
        split_ifs <;> rfl
      · rintro _ hp
        simp only [handleTagSelect, if_neg hguard]
        simp only [hp, and_true, true_or, if_pos]
        split_ifs <;> rfl
      · intro _ hc
        simp only [handleTagSelect, if_neg hguard]
        split_ifs with h1 h2 <;> simp_all
      · intro h; exact absurd h (by simp)
      · intro h; exact absurd h (by simp)

/-- C4 — witness: switching a Paid plan (budget cap 5, clicks unset) to FOC
clears the budget cap and initialises clicks-to-deliver to 0. -/
theorem C4_tag_select_transition_witness :
    (handleTagSelect ⟨"P1", "", "", [], [.Paid], some 5, none, none, none, false⟩ .FOC).budgetCap
        = none ∧
    (handleTagSelect
        ⟨"P1", "", "", [], [.Paid], some 5, none, none, none, false⟩ .FOC).clicksToBeDelivered
        = some 0 :=
  ⟨((C4_tag_select_transition
        ⟨"P1", "", "", [], [.Paid], some 5, none, none, none, false⟩ .FOC).2
      (by decide)).2.1 (Or.inl rfl) (by decide),
   ((C4_tag_select_transition
        ⟨"P1", "", "", [], [.Paid], some 5, none, none, none, false⟩ .FOC).2
      (by decide)).2.2.1 rfl rfl⟩

end PlanTable

lemma jsOrChain_all_falsy (row : Row) (keys : List String) (dflt : CellValue)
    (h : ∀ k ∈ keys, truthy (rowGet row k) = false) :
    jsOrChain row keys dflt = dflt := by
  induction keys with
  | nil => rfl
  | cons k ks ih =>
    unfold jsOrChain
    rw [if_neg (by rw [h k (List.mem_cons_self k ks)]; exact Bool.false_ne_true)]
    exact ih (fun x hx => h x (List.mem_cons_of_mem k hx))

/-- C5 — amended.  A row in which every plan-identifier alias is absent (or
falsy) is NOT failed and NOT skipped: normalization is total, the row still
produces a record — with `planId` degraded to the empty string — and every
other row of the batch is processed (output length equals input length). -/
theorem C5_missing_planId_row_kept (store : String → Option Plan) (rows : List Row) :
    (parseInventoryReport store rows).length = rows.length ∧
    (parseHistoricalData rows).length = rows.length ∧
    (∀ i row, rows.get? i = some row →
      (∀ k ∈ histPlanIdAliases, truthy (rowGet row k) = false) →
      ((parseHistoricalData rows).get? i).map HistoricalData.planId = some "") ∧
    (∀ i row, rows.get? i = some row →
      (∀ k ∈ invPlanIdAliases, truthy (rowGet row k) = false) →
      store "" = none →
      ((parseInventoryReport store rows).get? i).map Plan.planId = some "") := by
  refine ⟨by simp [parseInventoryReport], by simp [parseHistoricalData], ?_, ?_⟩
  · intro i row hrow hfalsy
    unfold parseHistoricalData
    rw [List.get?_map, hrow, Option.map_some', Option.map_some']
    have hchain : jsOrChain row histPlanIdAliases (.str "") = .str "" :=
      jsOrChain_all_falsy row histPlanIdAliases (.str "") hfalsy
    simp [parseHistoricalRow, hchain, jsToString]
  · intro i row hrow hfalsy hstore
    unfold parseInventoryReport
    rw [List.get?_map, hrow, Option.map_some', Option.map_some']
    have hchain : jsOrChain row invPlanIdAliases (.str "") = .str "" :=
      jsOrChain_all_falsy row invPlanIdAliases (.str "") hfalsy
    simp [parseInventoryRow, hchain, jsToString, hstore]

/-- C5 — witness: a completely empty raw row still yields an output record
whose `planId` is the empty string, in both parsers. -/
theorem C5_missing_planId_row_kept_witness :
    ((parseHistoricalData [([] : Row)]).get? 0).map HistoricalData.planId = some "" ∧
    ((parseInventoryReport (fun _ => none) [([] : Row)]).get? 0).map Plan.planId = some "" :=
  ⟨(C5_missing_planId_row_kept (fun _ => none) [([] : Row)]).2.2.1 0 [] rfl (by decide),
   (C5_missing_planId_row_kept (fun _ => none) [([] : Row)]).2.2.2 0 [] rfl (by decide) rfl⟩

/-- C5 — counterexample to the claim as stated: the claim demands that a row
with no plan-identifier alias produces NO output record; both parsers in
fact keep the row. -/
theorem C5_missing_planId_counterexample :
    parseHistoricalData [([] : Row)] ≠ ([] : List HistoricalData) ∧
    parseInventoryReport (fun _ => none) [([] : Row)] ≠ ([] : List Plan) := by
  constructor <;> simp [parseHistoricalData, parseInventoryReport]

lemma jsRound_zero : jsRound 0 = 0 := by
  unfold jsRound; norm_num

lemma numCoerce_eq_specNumCoerce (v : CellValue) : numCoerce v = specNumCoerce v := by
  cases v with
  | str s =>
    rw [show numCoerce (.str s)
          = (match parseFloatQ (stripCommas s) with | none => 0 | some q => jsRound q)
        from rfl,
      show specNumCoerce (.str s) = jsRound ((parseFloatQ (stripCommas s)).getD 0) from rfl]
    cases hp : parseFloatQ (stripCommas s) with
    | none => simp [jsRound_zero]
    | some q => simp
  | num q => rfl
  | null => rfl

/-- C6 — confirmed.  Each numeric field of a historical row — clicks,
distribution count, revenue — is coerced by stripping thousands separators,
parsing as a float, collapsing parse failure / NaN to 0, and rounding to an
integer (revenue to the nearest whole currency unit); a malformed field
leaves the rest of the record intact and no row is ever dropped. -/
theorem C6_numeric_coercion_total (rows : List Row) :
    (parseHistoricalData rows).map HistoricalData.clicks =
      rows.map (fun row => specNumCoerce (jsOrChain row clicksAliases (.num 0))) ∧
    (parseHistoricalData rows).map HistoricalData.distribution_count =
      rows.map (fun row => specNumCoerce (jsOrChain row distributionAliases (.num 0))) ∧
    (parseHistoricalData rows).map HistoricalData.revenue =
      rows.map (fun row => specNumCoerce (jsOrChain row revenueAliases (.num 0))) ∧
    (parseHistoricalData rows).map HistoricalData.planId =
      rows.map (fun row => jsToString (jsOrChain row histPlanIdAliases (.str ""))) ∧
    (parseHistoricalData rows).length = rows.length := by
  unfold parseHistoricalData
  refine ⟨?_, ?_, ?_, ?_, by simp⟩ <;>
    · rw [List.map_map]
      refine List.map_congr_left (fun row _ => ?_)
      simp [parseHistoricalRow, numCoerce_eq_specNumCoerce]

lemma char_isDigit_eq_false_of_isAlpha (c : Char) (h : c.isAlpha = true) :
    c.isDigit = false := by
  simp only [Char.isAlpha, Char.isUpper, Char.isLower, Char.isDigit, Bool.or_eq_true,
    Bool.and_eq_true, decide_eq_true_eq, ge_iff_le] at *
  rw [Bool.and_eq_false_iff]
  right
  rw [decide_eq_false_iff_not]
  intro hc
  have hcn : c.val.toNat ≤ 57 := hc
  rcases h with ⟨h1, _⟩ | ⟨h1, _⟩
  · have h1n : 65 ≤ c.val.toNat := h1
    omega
  · have h1n : 97 ≤ c.val.toNat := h1
    omega

lemma monDYShapeParse_alpha (s : String) (h : monDYShape s = true) :
    (s.toList.take 3).length = 3 ∧ (s.toList.take 3).all Char.isAlpha = true := by
  unfold monDYShape monDYShapeParse at h
  by_cases hc : (s.toList.take 3).length = 3 ∧ (s.toList.take 3).all Char.isAlpha = true
  · exact hc
  · rw [if_neg hc] at h
    simp at h

lemma parseIsoDate_none_of_monDYShape (s : String) (h : monDYShape s = true) :
    parseIsoDate s = none := by
  obtain ⟨hlen, halpha⟩ := monDYShapeParse_alpha s h
  unfold parseIsoDate
  rw [if_neg]
  rintro ⟨hlen4, hdig⟩
  have hsub : s.toList.take 3 = (s.toList.take 4).take 3 := by
    rw [List.take_take]; norm_num
  have hne : s.toList.take 3 ≠ [] := by
    intro he; rw [he] at hlen; simp at hlen
  obtain ⟨c, hc⟩ := List.exists_mem_of_ne_nil _ hne
  have hcalpha : c.isAlpha = true := List.all_eq_true.mp halpha c hc
  have hmem4 : c ∈ s.toList.take 4 := by
    apply List.take_subset 3
    rw [← hsub]
    exact hc
  have hcdig : c.isDigit = true := List.all_eq_true.mp hdig c hmem4
  rw [char_isDigit_eq_false_of_isAlpha c hcalpha] at hcdig
  exact Bool.false_ne_true hcdig

lemma monDYParts_none_of_not_shape (s : String) (h : monDYShape s = false) :
    monDYParts s = none := by
  unfold monDYParts
  unfold monDYShape at h
  cases hp : monDYShapeParse s with
  | none => rfl
  | some t => rw [hp] at h; simp at h

lemma part007_dateCoerceVal_eq_spec (v : CellValue) :
    Part007.dateCoerceVal v = specDateCoerce v := by
  cases v with
  | null => rfl
  | num q => rfl
  | str s =>
    simp only [Part007.dateCoerceVal, specDateCoerce]
    by_cases hs : monDYShape s = true
    · rw [if_pos hs]
      cases hmp : monDYParts s with
      | some t =>
        obtain ⟨m, d, y⟩ := t
        have hjs : jsNewDateOfString s = .fromYMD y m d := by
          simp only [jsNewDateOfString]; rw [if_pos hs, hmp]
        rw [hjs]
      | none =>
        have hjs : jsNewDateOfString s = .invalid := by
          simp only [jsNewDateOfString]; rw [if_pos hs, hmp]
        rw [hjs, parseIsoDate_none_of_monDYShape s hs]
    · have hsf : monDYShape s = false := by
        rw [Bool.not_eq_true] at hs; exact hs
      rw [if_neg hs]
      have hmp : monDYParts s = none := monDYParts_none_of_not_shape s hsf
      cases hi : parseIsoDate s with
      | some t =>
        obtain ⟨y, m, d⟩ := t
        have hjs : jsNewDateOfString s = .fromYMD y (m - 1) d := by
          simp only [jsNewDateOfString]; rw [if_neg hs, hi]
        rw [hjs, hmp]
      | none =>
        have hjs : jsNewDateOfString s = .invalid := by
          simp only [jsNewDateOfString]; rw [if_neg hs, hi]
        rw [hjs, hmp]

lemma part007_dateOf_eq_spec (row : Row) :
    Part007.dateOf row = specDateCoerce (jsOrChainNoDflt row Part007.dateAliases) := by
  unfold Part007.dateOf
  exact part007_dateCoerceVal_eq_spec _

/-- C7 — confirmed.  Date coercion of the revised historical parser accepts
a spreadsheet serial day-number, a `"Mon D, YYYY"` string, or an ISO-like
string; when every accepted form fails the record's date defaults to the
current processing date, and no row is ever dropped over an unparseable
date (output length equals input length). -/
theorem C7_date_coercion_defaults_to_current (rows : List Row) :
    (Part007.parseHistoricalData rows).length = rows.length ∧
    (Part007.parseHistoricalData rows).map HistoricalData.date =
      rows.map (fun row => specDateCoerce (jsOrChainNoDflt row Part007.dateAliases)) ∧
    (∀ q, specDateCoerce (.num q) = .fromSerial q) ∧
    (∀ s m d y, monDYParts s = some (m, d, y) → specDateCoerce (.str s) = .fromYMD y m d) ∧
    (∀ s y m d, monDYParts s = none → parseIsoDate s = some (y, m, d) →
      specDateCoerce (.str s) = .fromYMD y (m - 1) d) ∧
    (∀ s, monDYParts s = none → parseIsoDate s = none → specDateCoerce (.str s) = .current) := by
  refine ⟨by simp [Part007.parseHistoricalData], ?_, fun q => rfl, ?_, ?_, ?_⟩
  · unfold Part007.parseHistoricalData
    rw [List.map_map]
    refine List.map_congr_left (fun row _ => ?_)
    have : (HistoricalData.date ∘ Part007.parseHistoricalRow) row = Part007.dateOf row := rfl
    rw [this, part007_dateOf_eq_spec]
  · intro s m d y hmp
    simp only [specDateCoerce]
    rw [hmp]
  · intro s y m d hmp hi
    simp only [specDateCoerce]
    rw [hmp, hi]
  · intro s hmp hi
    simp only [specDateCoerce]
    rw [hmp, hi]

/-- C7 — witness: `"Apr 14, 2025"` parses to the calendar date, `"garbage"`
falls back to the current processing date, and a row with an unparseable
date is still emitted. -/
theorem C7_date_coercion_defaults_to_current_witness :
    specDateCoerce (.str "Apr 14, 2025") = .fromYMD 2025 3 14 ∧
    specDateCoerce (.str "garbage") = .current ∧
    (Part007.parseHistoricalData [[("Date", .str "garbage")]]).map HistoricalData.date =
      [JsDate.current] := by
  refine ⟨(C7_date_coercion_defaults_to_current []).2.2.2.1 "Apr 14, 2025" 3 14 2025 (by decide),
          (C7_date_coercion_defaults_to_current []).2.2.2.2.2 "garbage" (by decide) (by decide),
          ?_⟩
  rw [(C7_date_coercion_defaults_to_current [[("Date", .str "garbage")]]).2.1]
  decide

namespace DataReview

lemma validateStep_fst (acc : Bool × ℕ) (plan : Plan) :
    (validateStep acc plan).1 = (acc.1 && !(decide (specIncomplete plan))) := by
  simp only [validateStep, specIncomplete]
  split_ifs with h1 h2 h3 h4 <;> simp_all <;> tauto

lemma validateStep_snd (acc : Bool × ℕ) (plan : Plan) :
    (validateStep acc plan).2 = acc.2 + planUnfilled plan := by
  simp only [validateStep, planUnfilled]
  split_ifs <;> simp <;> omega

lemma validatePlans_foldl (plans : List Plan) (b : Bool) (n : ℕ) :
    plans.foldl validateStep (b, n) =
      (b && plans.all (fun p => !(decide (specIncomplete p))),
       n + (plans.map planUnfilled).sum) := by
  induction plans generalizing b n with
  | nil => simp
  | cons p ps ih =>
    rw [List.foldl_cons]
    have hstep : validateStep (b, n) p = (b && !(decide (specIncomplete p)), n + planUnfilled p) :=
      Prod.ext (validateStep_fst (b, n) p) (validateStep_snd (b, n) p)
    rw [hstep, ih]
    refine Prod.ext ?_ ?_
    · simp [Bool.and_assoc]
    · simp; omega

/-- C8 — confirmed.  `validatePlans` declares the batch valid exactly when no
plan is incomplete, where a plan is incomplete iff its publisher list is
empty, or it is tagged Paid with `budgetCap` undefined, Mandatory with
`distributionCount` undefined, or FOC with `clicksToBeDelivered` undefined
(a present 0 passes); the unfilled counter accumulates over every plan, so
one incomplete plan never stops classification of the rest. -/
theorem C8_validation_classifies_incompleteness (plans : List Plan) :
    ((validatePlans plans).1 = true ↔ ∀ p ∈ plans, ¬ specIncomplete p) ∧
    (validatePlans plans).2 = (plans.map planUnfilled).sum := by
  unfold validatePlans
  rw [validatePlans_foldl]
  constructor
  · simp [List.all_eq_true]
  · simp

/-- C8 — witness: a plan with a publisher, tag Paid and `budgetCap = 0`
passes validation (0 is a value, not an absence). -/
theorem C8_validation_classifies_incompleteness_witness :
    (validatePlans [⟨"P1", "", "", ["JioCinema"], [.Paid], some 0, none, none, none,
        false⟩]).1 = true :=
  (C8_validation_classifies_incompleteness
      [⟨"P1", "", "", ["JioCinema"], [.Paid], some 0, none, none, none, false⟩]).1.mpr
    (by decide)

end DataReview

namespace Firebase

lemma pickLater_foldl (l : List StoredEntry) (b : StoredEntry) :
    ∃ c, l.foldl pickLater (some b) = some c ∧ (c = b ∨ c ∈ l) ∧
      b.timestamp ≤ c.timestamp ∧ ∀ e ∈ l, e.timestamp ≤ c.timestamp := by
  induction l generalizing b with
  | nil => exact ⟨b, rfl, Or.inl rfl, le_refl _, by simp⟩
  | cons e l ih =>
    rw [List.foldl_cons]
    by_cases h : b.timestamp < e.timestamp
    · have hpick : pickLater (some b) e = some e := by
        rw [show pickLater (some b) e
              = if b.timestamp < e.timestamp then some e else some b from rfl, if_pos h]
      rw [hpick]
      obtain ⟨c, hc, hmem, hle, hall⟩ := ih e
      refine ⟨c, hc, ?_, le_trans (le_of_lt h) hle, ?_⟩
      · rcases hmem with rfl | hm
        · exact Or.inr (List.mem_cons_self c l)
        · exact Or.inr (List.mem_cons_of_mem e hm)
      · intro x hx
        rcases List.mem_cons.mp hx with rfl | hm
        · exact hle
        · exact hall x hm
    · have hpick : pickLater (some b) e = some b := by
        rw [show pickLater (some b) e
              = if b.timestamp < e.timestamp then some e else some b from rfl, if_neg h]
      rw [hpick]
      obtain ⟨c, hc, hmem, hle, hall⟩ := ih b
      refine ⟨c, hc, ?_, hle, ?_⟩
      · rcases hmem with rfl | hm
        · exact Or.inl rfl
        · exact Or.inr (List.mem_cons_of_mem e hm)
      · intro x hx
        rcases List.mem_cons.mp hx with rfl | hm
        · exact le_trans (le_of_not_lt h) hle
        · exact hall x hm

lemma latestFor_eq_some (store : List StoredEntry) (pid : String) (e : StoredEntry)
    (h : latestFor store pid = some e) :
    e ∈ store ∧ e.data.planId = pid ∧
      ∀ x ∈ store, x.data.planId = pid → x.timestamp ≤ e.timestamp := by
  unfold latestFor at h
  cases hf : store.filter (fun x => x.data.planId = pid) with
  | nil => rw [hf] at h; simp at h
  | cons x l =>
    rw [hf, List.foldl_cons] at h
    have hx : pickLater none x = some x := rfl
    rw [hx] at h
    obtain ⟨c, hc, hmem, hxle, hall⟩ := pickLater_foldl l x
    have hce : c = e := by
      rw [hc] at h
      exact Option.some_inj.mp h
    rw [hce] at hmem hxle hall
    have hcmem : e ∈ x :: l := by
      rcases hmem with rfl | hm
      · exact List.mem_cons_self e l
      · exact List.mem_cons_of_mem x hm
    have hcfil : e ∈ store.filter (fun x => x.data.planId = pid) := by rw [hf]; exact hcmem
    have hsp := List.mem_filter.mp hcfil
    refine ⟨hsp.1, by simpa using hsp.2, ?_⟩
    intro xx hxx hpid
    have hxxfil : xx ∈ store.filter (fun x => x.data.planId = pid) :=
      List.mem_filter.mpr ⟨hxx, by simpa using hpid⟩
    rw [hf] at hxxfil
    rcases List.mem_cons.mp hxxfil with rfl | hm
    · exact hxle
    · exact hall xx hm

lemma latestFor_eq_none_of_no_match (store : List StoredEntry) (pid : String)
    (h : ∀ e ∈ store, e.data.planId ≠ pid) : latestFor store pid = none := by
  unfold latestFor
  have hfil : store.filter (fun e => e.data.planId = pid) = [] := by
    rw [List.filter_eq_nil]
    intro e he
    simpa using h e he
  rw [hfil]
  rfl

/-- C9 — confirmed.  `getLatestPlanData` is total at its interface: a lookup
error yields `null`, an empty snapshot yields `null`, and otherwise the
single maximal-timestamp document matching the plan id is returned, with
`budgetCap` (resp. `distributionCount`, `clicksToBeDelivered`) restored only
when the stored tags include Paid (resp. Mandatory, FOC). -/
theorem C9_getLatestPlanData_total (queryResult : Except Unit (List StoredEntry))
    (pid : String) :
    (queryResult = .error () → getLatestPlanData queryResult pid = none) ∧
    (∀ store, queryResult = .ok store → (∀ e ∈ store, e.data.planId ≠ pid) →
      getLatestPlanData queryResult pid = none) ∧
    (∀ store e, queryResult = .ok store → latestFor store pid = some e →
      getLatestPlanData queryResult pid = some (restorePlan e.data) ∧
      e ∈ store ∧ e.data.planId = pid ∧
      (∀ x ∈ store, x.data.planId = pid → x.timestamp ≤ e.timestamp) ∧
      (Tag.Paid ∉ (restorePlan e.data).tags → (restorePlan e.data).budgetCap = none) ∧
      (Tag.Mandatory ∉ (restorePlan e.data).tags →
        (restorePlan e.data).distributionCount = none) ∧
      (Tag.FOC ∉ (restorePlan e.data).tags →
        (restorePlan e.data).clicksToBeDelivered = none)) := by
  refine ⟨?_, ?_, ?_⟩
  · intro h
    subst h
    rfl
  · intro store h hnone
    subst h
    have hred : getLatestPlanData (.ok store) pid =
        (match latestFor store pid with
         | none => none
         | some e => some (restorePlan e.data)) := rfl
    rw [hred, latestFor_eq_none_of_no_match store pid hnone]
  · intro store e h hlatest
    subst h
    obtain ⟨hmem, hpid, hmax⟩ := latestFor_eq_some store pid e hlatest
    refine ⟨?_, hmem, hpid, hmax, ?_, ?_, ?_⟩
    · have hred : getLatestPlanData (.ok store) pid =
          (match latestFor store pid with
           | none => none
           | some x => some (restorePlan x.data)) := rfl
      rw [hred, hlatest]
    · intro hnp
      simp only [restorePlan] at *
      rw [if_neg hnp]
    · intro hnm
      simp only [restorePlan] at *
      rw [if_neg hnm]
    · intro hnf
      simp only [restorePlan] at *
      rw [if_neg hnf]

/-- C9 — witness: a stored Mandatory-tagged document restores
`distributionCount` but not `budgetCap`; an errored lookup returns `null`. -/
theorem C9_getLatestPlanData_total_witness :
    getLatestPlanData
        (.ok [⟨⟨"P1", some [.Mandatory], some ["X"], some "", some "", some 5, some 3,
               some 4⟩, 10⟩]) "P1" =
      some (restorePlan ⟨"P1", some [.Mandatory], some ["X"], some "", some "", some 5,
            some 3, some 4⟩) ∧
    getLatestPlanData (.error ()) "P1" = none :=
  ⟨((C9_getLatestPlanData_total
        (.ok [⟨⟨"P1", some [.Mandatory], some ["X"], some "", some "", some 5, some 3,
               some 4⟩, 10⟩]) "P1").2.2
      [⟨⟨"P1", some [.Mandatory], some ["X"], some "", some "", some 5, some 3, some 4⟩, 10⟩]
      ⟨⟨"P1", some [.Mandatory], some ["X"], some "", some "", some 5, some 3, some 4⟩, 10⟩
      rfl (by decide)).1,
   (C9_getLatestPlanData_total (.error ()) "P1").1 rfl⟩

end Firebase

namespace PlanTable

/-- C10 — confirmed.  A budget-cap edit on a plan whose tag set does not
include Paid performs no update at all: the plan list is returned unchanged;
conversely, any change produced by `handleBudgetChange` implies the edited
plan carries the Paid tag. -/
theorem C10_budget_edit_noop_for_non_paid (plans : List Plan) (i : ℕ) (v : String) :
    (∀ p, plans.get? i = some p → Tag.Paid ∉ p.tags →
      handleBudgetChange plans i v = plans) ∧
    (handleBudgetChange plans i v ≠ plans →
      ∃ p, plans.get? i = some p ∧ Tag.Paid ∈ p.tags) := by
  constructor
  · intro p hp hnp
    unfold handleBudgetChange
    rw [hp]
    exact if_neg hnp
  · intro hne
    cases hip : plans.get? i with
    | none =>
      exfalso
      apply hne
      unfold handleBudgetChange
      rw [hip]
    | some p =>
      by_cases hp : Tag.Paid ∈ p.tags
      · exact ⟨p, rfl, hp⟩
      · exfalso
        apply hne
        unfold handleBudgetChange
        rw [hip]
        exact if_neg hp

/-- C10 — witness: editing the budget cap of a FOC-tagged plan leaves the
plan list untouched. -/
theorem C10_budget_edit_noop_for_non_paid_witness :
    handleBudgetChange [⟨"P1", "", "", [], [.FOC], some 5, none, none, none, false⟩] 0 "300" =
      [⟨"P1", "", "", [], [.FOC], some 5, none, none, none, false⟩] :=
  (C10_budget_edit_noop_for_non_paid
      [⟨"P1", "", "", [], [.FOC], some 5, none, none, none, false⟩] 0 "300").1
    ⟨"P1", "", "", [], [.FOC], some 5, none, none, none, false⟩ rfl (by decide)

end PlanTable

end AutoDist


